import Mathlib

/-!
The `.airc` generator of `src/index.js` (dotairc).

A shallow embedding of the command-line program and the properties of its
template aggregation.

* A JavaScript string is modelled by its list of characters (`Str`).
* `String.prototype.split(',')` and `String.prototype.trim()` are modelled
  concretely (`split`, `trim`).
* `String.prototype.toLowerCase()` is a platform builtin (Unicode default case
  conversion); it is a parameter of the model (`Env.toLowerCase`).
* The file system is a parameter too: `Env.readFile` is what
  `fs.readFile(path.join(templatesDir, name), 'utf-8')` yields for the file name
  `name` (`none` when the call throws), and `Env.ensureDirError`,
  `Env.writeFileError` say whether `fs.ensureDir` and `fs.writeFile` throw.
* A run of the program is described by what it leaves behind (`Process`): the
  messages on standard output and standard error, the file operations it
  attempted, the content written to `.airc`, and the exit code.
-/

namespace Dotairc

/-- A JavaScript string, as the list of its characters. -/
abbrev Str := List Char

/-- The `length` of a JavaScript string: its number of UTF-16 code units. -/
def jsLength (s : Str) : Nat :=
  (s.map (fun c => if c.toNat < 65536 then 1 else 2)).sum

/-- The characters `String.prototype.trim` strips: ECMAScript `WhiteSpace`
(TAB, VT, FF, ZWNBSP and the Unicode space separators) and `LineTerminator`
(LF, CR, LS, PS). -/
def isWhiteSpace (c : Char) : Bool :=
  [9, 10, 11, 12, 13, 32, 160, 5760, 8232, 8233, 8239, 8287, 12288, 65279].contains c.toNat
    || (8192 ≤ c.toNat && c.toNat ≤ 8202)

/-- The builtin `String.prototype.trimStart`. -/
def trimStart (s : Str) : Str :=
  s.dropWhile isWhiteSpace

/-- The builtin `String.prototype.trimEnd`. -/
def trimEnd (s : Str) : Str :=
  (s.reverse.dropWhile isWhiteSpace).reverse

/-- The builtin `String.prototype.trim`: white space removed from both ends. -/
def trim (s : Str) : Str :=
  trimEnd (trimStart s)

/-- The call `s.split(',')`: the pieces of `s` between its commas, in order; a
string without a comma (the empty string included) gives one piece. -/
def split : Str → List Str
  | [] => [[]]
  | c :: cs =>
    if c = ',' then [] :: split cs
    else
      match split cs with
      | [] => [[c]]
      | piece :: pieces => (c :: piece) :: pieces

/-- The call `pieces.join(',')`, the inverse of `split`. -/
def join : List Str → Str
  | [] => []
  | [piece] => piece
  | piece :: next :: pieces => piece ++ ',' :: join (next :: pieces)

/-- The header `combinedContent` starts from. -/
def header : Str := "# AI Agent Instructions\n\n".toList

/-- The text of the warning for `tech`, the argument of `console.warn`. -/
def warning (tech : Str) : Str := "Warning: No template found for ".toList ++ tech

/-- The message of `console.log` after the write. -/
def successMessage : Str := ".airc file generated successfully!".toList

/-- The message of `console.error` when `options.stack` is falsy. -/
def usageMessage : Str := "Please provide a technology stack using --stack option".toList

/-- The template literal `${tech}.md`, the file name joined to `templatesDir`. -/
def templateName (tech : Str) : Str := tech ++ ".md".toList

/-- A file operation the program attempts. -/
inductive FileOp where
  | ensureDir : FileOp
  | readFile : Str → FileOp
  | writeFile : Str → FileOp
  deriving DecidableEq

/-- What the program runs against. -/
structure Env where
  /-- The builtin `String.prototype.toLowerCase`. -/
  toLowerCase : Str → Str
  /-- The result of `fs.readFile(path.join(templatesDir, name), 'utf-8')` for
  the file name `name`: the text, or `none` when the call throws. -/
  readFile : Str → Option Str
  /-- The error `fs.ensureDir(templatesDir)` throws, if it throws. -/
  ensureDirError : Option Str
  /-- The error `fs.writeFile('.airc', combinedContent)` throws, if it throws. -/
  writeFileError : Option Str

/-- An environment in which no unexpected I/O failure happens. -/
def Env.ok (toLowerCase : Str → Str) (readFile : Str → Option Str) : Env :=
  ⟨toLowerCase, readFile, none, none⟩

/-- What a run leaves behind. -/
structure Process where
  /-- The messages written to standard output, in order. -/
  stdout : List Str
  /-- The messages written to standard error, in order. -/
  stderr : List Str
  /-- The file operations attempted, in order. -/
  fileOps : List FileOp
  /-- The content written to `.airc` by this run, if a write succeeded. -/
  airc : Option Str
  /-- The exit code of the process. -/
  exitCode : Nat
  deriving DecidableEq

/-- The process before the script body runs. -/
def Process.start : Process := ⟨[], [], [], none, 0⟩

/-- The loop `for (const tech of technologies)`, threading `combinedContent`. -/
def forLoop (env : Env) : List Str → Str → Process → Str × Process
  | [], combinedContent, p => (combinedContent, p)
  | tech :: rest, combinedContent, p =>
    let templatePath := templateName tech
    let p := { p with fileOps := p.fileOps ++ [FileOp.readFile templatePath] }
    match env.readFile templatePath with
    | some content =>
      forLoop env rest (combinedContent ++ (content ++ "\n\n".toList)) p
    | none =>
      forLoop env rest combinedContent { p with stderr := p.stderr ++ [warning tech] }

/-- The list `technologies` computed from `options.stack`. -/
def technologies (env : Env) (stack : Str) : List Str :=
  (split stack).map (fun tech => env.toLowerCase (trim tech))

/-- The function `generateAIRC`, run on `options.stack = stack`: the error the
returned promise rejects with (if any) and the process afterwards. -/
def generateAIRC (env : Env) (stack : Str) (p : Process) : Option Str × Process :=
  let technologies := technologies env stack
  let combinedContent := header
  let p := { p with fileOps := p.fileOps ++ [FileOp.ensureDir] }
  match env.ensureDirError with
  | some error => (some error, p)
  | none =>
    let (combinedContent, p) := forLoop env technologies combinedContent p
    let p := { p with fileOps := p.fileOps ++ [FileOp.writeFile combinedContent] }
    match env.writeFileError with
    | some error => (some error, p)
    | none =>
      (none, { p with airc := some combinedContent, stdout := p.stdout ++ [successMessage] })

/-- The script: `argStack` is the value given to `--stack` (`none` when the
flag is absent, in which case `options.stack` is the default `''`). -/
def run (env : Env) (argStack : Option Str) : Process :=
  let stack := argStack.getD []
  if stack ≠ [] then
    match generateAIRC env stack Process.start with
    | (none, p) => p
    | (some error, p) => { p with stderr := p.stderr ++ [error] }
  else
    { Process.start with stderr := [usageMessage], exitCode := 1 }

/-- The lower case of one character, for the letters `A` to `Z` only. -/
def asciiLowerChar (c : Char) : Char :=
  if 65 ≤ c.toNat ∧ c.toNat ≤ 90 then Char.ofNat (c.toNat + 32) else c

/-- A lower-casing that changes the letters `A` to `Z` only; it agrees with
`toLowerCase` on ASCII text. -/
def asciiLower (s : Str) : Str :=
  s.map asciiLowerChar

/-- A templates directory holding `vue.md` and `html.md`. -/
def sampleTemplates (name : Str) : Option Str :=
  if name = "vue.md".toList then some "Vue.js rules".toList
  else if name = "html.md".toList then some "HTML rules".toList
  else none

/-- The block one normalized identifier adds to `combinedContent`: the
template's text and a blank line when `${tech}.md` can be read, nothing
otherwise. -/
def block (readFile : Str → Option Str) (tech : Str) : Str :=
  match readFile (templateName tech) with
  | some content => content ++ "\n\n".toList
  | none => []

/-- Whether the template of a normalized identifier cannot be read. -/
def missing (readFile : Str → Option Str) (tech : Str) : Bool :=
  (readFile (templateName tech)).isNone

/-- The content the loop builds over `techs`, in closed form: the header and
the blocks of the identifiers, in order (`forLoop_eq` relates it to the loop). -/
def contentOf (readFile : Str → Option Str) (techs : List Str) : Str :=
  header ++ (techs.map (block readFile)).flatten

/-- The warnings the loop emits over `techs`, in closed form: one for each
identifier whose template cannot be read, in order (`forLoop_eq` relates it to
the loop). -/
def warningsOf (readFile : Str → Option Str) (techs : List Str) : List Str :=
  (techs.filter (missing readFile)).map warning

/-- The file operations of a run of `generateAIRC` that reaches the write. -/
def fileOpsOf (techs : List Str) (content : Str) : List FileOp :=
  FileOp.ensureDir :: techs.map (fun tech => FileOp.readFile (templateName tech))
    ++ [FileOp.writeFile content]

/-- The resolved identifiers of `techs` with the template found for each, in
input order. -/
def resolved (readFile : Str → Option Str) (techs : List Str) : List (Str × Str) :=
  techs.filterMap (fun tech => (readFile (templateName tech)).map (fun content => (tech, content)))

/-- A templates directory holding `vue.md` and a file named `.md`. -/
def dotTemplates (name : Str) : Option Str :=
  if name = "vue.md".toList then some "Vue.js rules".toList
  else if name = ".md".toList then some "Nameless rules".toList
  else none

/-- A string made of white space only. -/
def allWhiteSpace (s : Str) : Prop :=
  ∀ c ∈ s, isWhiteSpace c = true

instance (s : Str) : Decidable (allWhiteSpace s) :=
  inferInstanceAs (Decidable (∀ c ∈ s, isWhiteSpace c = true))

/-- An identifier token together with the text put before and after it. -/
structure PaddedToken where
  /-- The text before the token. -/
  leading : Str
  /-- The identifier token. -/
  token : Str
  /-- The text after the token. -/
  trailing : Str

/-- Every token is surrounded by white space only. -/
def wellPadded (tokens : List PaddedToken) : Prop :=
  ∀ x ∈ tokens, allWhiteSpace x.leading ∧ allWhiteSpace x.trailing

instance (tokens : List PaddedToken) : Decidable (wellPadded tokens) :=
  inferInstanceAs (Decidable (∀ x ∈ tokens, allWhiteSpace x.leading ∧ allWhiteSpace x.trailing))

/-- The stack made of the tokens with their surroundings, joined by commas. -/
def paddedStack (tokens : List PaddedToken) : Str :=
  join (tokens.map (fun x => x.leading ++ x.token ++ x.trailing))

/-- The stack made of the tokens with their surrounding white space removed,
joined by commas. -/
def strippedStack (tokens : List PaddedToken) : Str :=
  join (tokens.map (fun x => trim x.token))

/-! ## Splitting at commas -/

theorem split_ne_nil (s : Str) : split s ≠ [] := by
  cases s with
  | nil => simp [split]
  | cons c cs =>
    simp only [split]
    split_ifs
    · simp
    · cases split cs <;> simp

theorem split_cons_comma (s : Str) : split (',' :: s) = [] :: split s := by
  simp [split]

theorem split_cons_of_ne (c : Char) (s : Str) (h : c ≠ ',') :
    ∃ piece pieces, split s = piece :: pieces ∧ split (c :: s) = (c :: piece) :: pieces := by
  cases hs : split s with
  | nil => exact absurd hs (split_ne_nil s)
  | cons piece pieces => exact ⟨piece, pieces, rfl, by simp [split, h, hs]⟩

theorem split_append_comma (a b : Str) : split (a ++ ',' :: b) = split a ++ split b := by
  induction a with
  | nil => simp [split]
  | cons c cs ih =>
    by_cases h : c = ','
    · subst h
      simp [split_cons_comma, ih]
    · obtain ⟨piece, pieces, h1, h2⟩ := split_cons_of_ne c cs h
      obtain ⟨piece2, pieces2, h3, h4⟩ := split_cons_of_ne c (cs ++ ',' :: b) h
      rw [List.cons_append, h4, h2]
      rw [ih, h1] at h3
      simp only [List.cons_append, List.cons.injEq] at h3
      simp [h3.1, h3.2]

theorem split_of_not_mem (s : Str) (h : ',' ∉ s) : split s = [s] := by
  induction s with
  | nil => rfl
  | cons c cs ih =>
    have hc : c ≠ ',' := fun e => h (by simp [e])
    have hcs : ',' ∉ cs := fun e => h (List.mem_cons_of_mem _ e)
    simp [split, hc, ih hcs]

theorem not_mem_of_mem_split (s : Str) : ∀ piece ∈ split s, ',' ∉ piece := by
  induction s with
  | nil => simp [split]
  | cons c cs ih =>
    by_cases h : c = ','
    · subst h
      simpa [split_cons_comma] using ih
    · obtain ⟨piece, pieces, h1, h2⟩ := split_cons_of_ne c cs h
      rw [h1] at ih
      rw [h2]
      intro q hq
      rcases List.mem_cons.1 hq with rfl | hq
      · have := ih piece (List.mem_cons_self _ _)
        simp [this, Ne.symm h]
      · exact ih q (List.mem_cons_of_mem _ hq)

theorem length_split (s : Str) : (split s).length = s.count ',' + 1 := by
  induction s with
  | nil => rfl
  | cons c cs ih =>
    by_cases h : c = ','
    · subst h
      simp [split_cons_comma, ih]
    · obtain ⟨piece, pieces, h1, h2⟩ := split_cons_of_ne c cs h
      rw [h2, List.count_cons_of_ne (Ne.symm h), ← ih, h1]
      simp

theorem join_split (s : Str) : join (split s) = s := by
  induction s with
  | nil => rfl
  | cons c cs ih =>
    by_cases h : c = ','
    · subst h
      rw [split_cons_comma]
      cases hs : split cs with
      | nil => exact absurd hs (split_ne_nil cs)
      | cons piece pieces => rw [hs] at ih; simp [join, ih]
    · obtain ⟨piece, pieces, h1, h2⟩ := split_cons_of_ne c cs h
      rw [h2]
      rw [h1] at ih
      cases pieces with
      | nil => simpa [join] using ih
      | cons q qs => simp only [join] at ih ⊢; simp [ih]

theorem split_join_flatten (pieces : List Str) (h : pieces ≠ []) :
    split (join pieces) = (pieces.map split).flatten := by
  induction pieces with
  | nil => exact absurd rfl h
  | cons p ps ih =>
    cases ps with
    | nil => simp [join]
    | cons q qs =>
      simp only [join, split_append_comma]
      rw [ih (by simp)]
      simp

theorem split_join (pieces : List Str) (h : pieces ≠ []) (hc : ∀ piece ∈ pieces, ',' ∉ piece) :
    split (join pieces) = pieces := by
  rw [split_join_flatten pieces h]
  clear h
  induction pieces with
  | nil => rfl
  | cons p ps ih =>
    simp only [List.map_cons, List.flatten_cons]
    rw [split_of_not_mem p (hc p (List.mem_cons_self _ _)),
      ih (fun q hq => hc q (List.mem_cons_of_mem _ hq))]
    rfl

/-! ## Trimming -/

theorem trimStart_append_left (w s : Str) (hw : allWhiteSpace w) :
    trimStart (w ++ s) = trimStart s := by
  unfold trimStart
  exact List.dropWhile_append_of_pos hw

theorem trimEnd_append_right (s w : Str) (hw : allWhiteSpace w) :
    trimEnd (s ++ w) = trimEnd s := by
  unfold trimEnd
  rw [List.reverse_append, List.dropWhile_append_of_pos]
  intro c hc
  exact hw c (List.mem_reverse.1 hc)

theorem trimEnd_nil : trimEnd [] = [] := rfl

theorem trimStart_allWhiteSpace (w : Str) (hw : allWhiteSpace w) : trimStart w = [] := by
  unfold trimStart
  exact List.dropWhile_eq_nil_iff.2 hw

theorem trimStart_append_right (s w : Str) (hs : ¬ allWhiteSpace s) :
    trimStart (s ++ w) = trimStart s ++ w := by
  unfold trimStart
  induction s with
  | nil => exact absurd (fun c hc => absurd hc (List.not_mem_nil c)) hs
  | cons c cs ih =>
    by_cases hc : isWhiteSpace c = true
    · have hcs : ¬ allWhiteSpace cs := by
        intro h
        apply hs
        intro d hd
        rcases List.mem_cons.1 hd with rfl | hd
        · exact hc
        · exact h d hd
      simp only [List.cons_append, List.dropWhile_cons_of_pos hc]
      exact ih hcs
    · simp only [List.cons_append, List.dropWhile_cons_of_neg hc]

theorem trim_append_left (w s : Str) (hw : allWhiteSpace w) : trim (w ++ s) = trim s := by
  unfold trim
  rw [trimStart_append_left w s hw]

theorem trim_append_right (s w : Str) (hw : allWhiteSpace w) : trim (s ++ w) = trim s := by
  unfold trim
  by_cases hs : allWhiteSpace s
  · have h : allWhiteSpace (s ++ w) := by
      intro c hc
      rcases List.mem_append.1 hc with h | h
      · exact hs c h
      · exact hw c h
    rw [trimStart_allWhiteSpace _ h, trimStart_allWhiteSpace _ hs]
  · rw [trimStart_append_right s w hs, trimEnd_append_right _ w hw]

theorem trim_pad (l t r : Str) (hl : allWhiteSpace l) (hr : allWhiteSpace r) :
    trim (l ++ t ++ r) = trim t := by
  rw [trim_append_right _ r hr, trim_append_left l t hl]

/-- Every string is its trimmed form between two runs of white space. -/
theorem trim_decompose (s : Str) :
    ∃ l r, allWhiteSpace l ∧ allWhiteSpace r ∧ s = l ++ trim s ++ r := by
  refine ⟨s.takeWhile isWhiteSpace,
    ((trimStart s).reverse.takeWhile isWhiteSpace).reverse, ?_, ?_, ?_⟩
  · intro c hc
    exact List.mem_takeWhile_imp hc
  · intro c hc
    exact List.mem_takeWhile_imp (List.mem_reverse.1 hc)
  · have h1 : s = s.takeWhile isWhiteSpace ++ trimStart s :=
      (List.takeWhile_append_dropWhile isWhiteSpace s).symm
    have h2 : trimStart s = trim s ++ ((trimStart s).reverse.takeWhile isWhiteSpace).reverse := by
      unfold trim trimEnd
      rw [← List.reverse_append, List.takeWhile_append_dropWhile, List.reverse_reverse]
    rw [List.append_assoc, ← h2]
    exact h1

theorem trim_trim (s : Str) : trim (trim s) = trim s := by
  obtain ⟨l, r, hl, hr, h⟩ := trim_decompose s
  have := trim_pad l (trim s) r hl hr
  rw [← h] at this
  exact this.symm

/-! ## Trimming the pieces of a split -/

theorem isWhiteSpace_comma : isWhiteSpace ',' = false := by decide

theorem not_mem_of_allWhiteSpace (w : Str) (hw : allWhiteSpace w) : ',' ∉ w := by
  intro h
  have := hw ',' h
  rw [isWhiteSpace_comma] at this
  exact Bool.noConfusion this

theorem split_append_left (w t : Str) (hw : ',' ∉ w) :
    ∃ piece pieces, split t = piece :: pieces ∧ split (w ++ t) = (w ++ piece) :: pieces := by
  induction w with
  | nil =>
    cases hs : split t with
    | nil => exact absurd hs (split_ne_nil t)
    | cons piece pieces => exact ⟨piece, pieces, rfl, by simpa using hs⟩
  | cons c cs ih =>
    have hc : c ≠ ',' := fun e => hw (by simp [e])
    obtain ⟨piece, pieces, h1, h2⟩ := ih (fun e => hw (List.mem_cons_of_mem _ e))
    obtain ⟨q, qs, h3, h4⟩ := split_cons_of_ne c (cs ++ t) hc
    rw [h2] at h3
    simp only [List.cons.injEq] at h3
    exact ⟨piece, pieces, h1, by rw [List.cons_append, h4, ← h3.1, ← h3.2]; rfl⟩

theorem split_append_right (t w : Str) (hw : ',' ∉ w) :
    ∃ init last, split t = init ++ [last] ∧ split (t ++ w) = init ++ [last ++ w] := by
  induction t with
  | nil => exact ⟨[], [], rfl, by simp [split_of_not_mem w hw]⟩
  | cons c cs ih =>
    obtain ⟨init, last, h1, h2⟩ := ih
    by_cases hc : c = ','
    · subst hc
      exact ⟨[] :: init, last, by simp [split_cons_comma, h1],
        by simp [split_cons_comma, h2]⟩
    · obtain ⟨piece, pieces, h3, h4⟩ := split_cons_of_ne c cs hc
      obtain ⟨q, qs, h5, h6⟩ := split_cons_of_ne c (cs ++ w) hc
      rw [h1] at h3
      rw [h2] at h5
      cases init with
      | nil =>
        simp only [List.nil_append, List.cons.injEq] at h3 h5
        refine ⟨[], c :: last, ?_, ?_⟩
        · rw [h4, ← h3.1, ← h3.2]; rfl
        · rw [List.cons_append, h6, ← h5.1, ← h5.2]; rfl
      | cons i is =>
        simp only [List.cons_append, List.cons.injEq] at h3 h5
        refine ⟨(c :: i) :: is, last, ?_, ?_⟩
        · rw [h4, ← h3.1, ← h3.2]; rfl
        · rw [List.cons_append, h6, ← h5.1, ← h5.2]; rfl

theorem map_trim_split_append_left (w t : Str) (hw : allWhiteSpace w) :
    (split (w ++ t)).map trim = (split t).map trim := by
  obtain ⟨piece, pieces, h1, h2⟩ := split_append_left w t (not_mem_of_allWhiteSpace w hw)
  rw [h1, h2, List.map_cons, List.map_cons, trim_append_left w piece hw]

theorem map_trim_split_append_right (t w : Str) (hw : allWhiteSpace w) :
    (split (t ++ w)).map trim = (split t).map trim := by
  obtain ⟨init, last, h1, h2⟩ := split_append_right t w (not_mem_of_allWhiteSpace w hw)
  rw [h1, h2, List.map_append, List.map_append, List.map_singleton, List.map_singleton,
    trim_append_right last w hw]

theorem map_trim_split_pad (l t r : Str) (hl : allWhiteSpace l) (hr : allWhiteSpace r) :
    (split (l ++ t ++ r)).map trim = (split t).map trim := by
  rw [map_trim_split_append_right _ r hr, map_trim_split_append_left l t hl]

theorem map_trim_split_trim (t : Str) : (split (trim t)).map trim = (split t).map trim := by
  obtain ⟨l, r, hl, hr, h⟩ := trim_decompose t
  have := map_trim_split_pad l (trim t) r hl hr
  rw [← h] at this
  exact this.symm

/-! ## The loop and the run in closed form -/

theorem forLoop_eq (env : Env) (techs : List Str) (combinedContent : Str) (p : Process) :
    forLoop env techs combinedContent p =
      (combinedContent ++ (techs.map (block env.readFile)).flatten,
        { p with
          fileOps := p.fileOps ++ techs.map (fun tech => FileOp.readFile (templateName tech)),
          stderr := p.stderr ++ warningsOf env.readFile techs }) := by
  induction techs generalizing combinedContent p with
  | nil => simp [forLoop, warningsOf]
  | cons tech rest ih =>
    cases h : env.readFile (templateName tech) with
    | some content =>
      simp [forLoop, h, ih, block, warningsOf, missing, List.append_assoc]
    | none =>
      simp [forLoop, h, ih, block, warningsOf, missing, List.append_assoc]

theorem generateAIRC_congr (env : Env) (s₁ s₂ : Str) (p : Process)
    (h : technologies env s₁ = technologies env s₂) :
    generateAIRC env s₁ p = generateAIRC env s₂ p := by
  unfold generateAIRC
  rw [h]

theorem run_some (env : Env) (stack : Str) (h : stack ≠ []) :
    run env (some stack) =
      match generateAIRC env stack Process.start with
      | (none, p) => p
      | (some error, p) => { p with stderr := p.stderr ++ [error] } := by
  simp [run, h]

theorem run_congr (env : Env) (s₁ s₂ : Str) (h₁ : s₁ ≠ []) (h₂ : s₂ ≠ [])
    (h : technologies env s₁ = technologies env s₂) :
    run env (some s₁) = run env (some s₂) := by
  rw [run_some env s₁ h₁, run_some env s₂ h₂, generateAIRC_congr env s₁ s₂ _ h]

theorem run_ok (toLowerCase : Str → Str) (readFile : Str → Option Str) (stack : Str)
    (h : stack ≠ []) :
    run (Env.ok toLowerCase readFile) (some stack) =
      { stdout := [successMessage]
        stderr := warningsOf readFile (technologies (Env.ok toLowerCase readFile) stack)
        fileOps := fileOpsOf (technologies (Env.ok toLowerCase readFile) stack)
          (contentOf readFile (technologies (Env.ok toLowerCase readFile) stack))
        airc := some (contentOf readFile (technologies (Env.ok toLowerCase readFile) stack))
        exitCode := 0 } := by
  rw [run_some _ _ h]
  simp [generateAIRC, forLoop_eq, Env.ok, Process.start, contentOf, fileOpsOf]

theorem flatten_map_block (readFile : Str → Option Str) (techs : List Str) :
    (techs.map (block readFile)).flatten =
      ((resolved readFile techs).map (fun x => x.2 ++ "\n\n".toList)).flatten := by
  induction techs with
  | nil => rfl
  | cons tech rest ih =>
    cases h : readFile (templateName tech) with
    | some content => simp [block, resolved, h] at ih ⊢; exact ih
    | none => simp [block, resolved, h] at ih ⊢; exact ih

theorem length_resolved_add (readFile : Str → Option Str) (techs : List Str) :
    (resolved readFile techs).length + (warningsOf readFile techs).length = techs.length := by
  induction techs with
  | nil => rfl
  | cons tech rest ih =>
    cases h : readFile (templateName tech) with
    | some content =>
      simp [resolved, warningsOf, missing, h] at ih ⊢
      omega
    | none =>
      simp [resolved, warningsOf, missing, h] at ih ⊢
      omega

theorem count_resolved (readFile : Str → Option Str) (techs : List Str) (tech content : Str)
    (h : readFile (templateName tech) = some content) :
    (resolved readFile techs).count (tech, content) = techs.count tech := by
  induction techs with
  | nil => rfl
  | cons t rest ih =>
    unfold resolved at ih ⊢
    by_cases ht : t = tech
    · subst ht
      simp [h, ih]
    · cases h2 : readFile (templateName t) with
      | some c =>
        simp only [List.filterMap_cons, h2, Option.map_some']
        rw [List.count_cons_of_ne (by intro e; exact ht (Prod.mk.inj e).1.symm),
          List.count_cons_of_ne (Ne.symm ht)]
        exact ih
      | none =>
        simp only [List.filterMap_cons, h2, Option.map_none']
        rw [List.count_cons_of_ne (Ne.symm ht)]
        exact ih

theorem map_block_resolved (readFile : Str → Option Str) (techs : List Str) :
    (resolved readFile techs).map (fun x => x.2 ++ "\n\n".toList) =
      (techs.filterMap (fun tech => readFile (tech ++ ".md".toList))).map
        (fun text => text ++ "\n\n".toList) := by
  induction techs with
  | nil => rfl
  | cons t ts ih =>
    unfold resolved at ih ⊢
    cases ht : readFile (t ++ ".md".toList) with
    | some content =>
      simp only [List.filterMap_cons, templateName, ht, Option.map_some', List.map_cons]
      rw [← ih]
      rfl
    | none =>
      simp only [List.filterMap_cons, templateName, ht, Option.map_none']
      exact ih

theorem jsLength_append (a b : Str) : jsLength (a ++ b) = jsLength a + jsLength b := by
  simp [jsLength, List.sum_append]

/-! ## The content written to `.airc` -/

/-- C1: for a non-empty stack and any template lookup, the content written to
`.airc` is the header followed, for each comma-separated token in input order,
by the template found under the trimmed, lower-cased token and a blank line, or
by nothing when there is none. The blocks are those of the resolved identifiers
in input order, and an identifier that resolves occurs among them as often as
among the tokens. -/
theorem airc_content_in_input_order (toLowerCase : Str → Str)
    (templateLookup : Str → Option Str) (stack : Str) (h : stack ≠ []) :
    (run (Env.ok toLowerCase templateLookup) (some stack)).airc =
        some ("# AI Agent Instructions\n\n".toList ++
          ((split stack).map (fun token =>
            match templateLookup (toLowerCase (trim token) ++ ".md".toList) with
            | some text => text ++ "\n\n".toList
            | none => [])).flatten)
      ∧ (run (Env.ok toLowerCase templateLookup) (some stack)).airc =
        some (header ++
          ((resolved templateLookup ((split stack).map (fun token => toLowerCase (trim token)))).map
            (fun x => x.2 ++ "\n\n".toList)).flatten)
      ∧ ∀ identifier text, templateLookup (identifier ++ ".md".toList) = some text →
          (resolved templateLookup
              ((split stack).map (fun token => toLowerCase (trim token)))).count (identifier, text)
            = ((split stack).map (fun token => toLowerCase (trim token))).count identifier := by
  rw [run_ok toLowerCase templateLookup stack h]
  refine ⟨?_, ?_, ?_⟩
  · simp only [contentOf, technologies, Env.ok, List.map_map]
    rfl
  · simp only [contentOf, technologies, Env.ok, flatten_map_block]
  · intro identifier text hfound
    exact count_resolved templateLookup _ identifier text hfound

theorem airc_content_in_input_order_witness :
    "VUE, html ,vue".toList ≠ []
      ∧ sampleTemplates ("vue".toList ++ ".md".toList) = some "Vue.js rules".toList
      ∧ (run (Env.ok asciiLower sampleTemplates) (some "VUE, html ,vue".toList)).airc =
        some "# AI Agent Instructions\n\nVue.js rules\n\nHTML rules\n\nVue.js rules\n\n".toList
      ∧ (resolved sampleTemplates
            ((split "VUE, html ,vue".toList).map (fun token => asciiLower (trim token)))).count
          ("vue".toList, "Vue.js rules".toList) = 2 :=
  ⟨by decide, by decide,
    (airc_content_in_input_order asciiLower sampleTemplates "VUE, html ,vue".toList
      (by decide)).1.trans (by decide),
    ((airc_content_in_input_order asciiLower sampleTemplates "VUE, html ,vue".toList
      (by decide)).2.2 "vue".toList "Vue.js rules".toList (by decide)).trans (by decide)⟩

/-- C2: for a non-empty stack and any template lookup, the content written to
`.airc` begins with the header and is not empty, and it is exactly the header
when no token resolves to a template. -/
theorem airc_starts_with_header (toLowerCase : Str → Str)
    (templateLookup : Str → Option Str) (stack : Str) (h : stack ≠ []) :
    ∃ content, (run (Env.ok toLowerCase templateLookup) (some stack)).airc = some content
      ∧ "# AI Agent Instructions\n\n".toList <+: content
      ∧ content ≠ []
      ∧ ((∀ token ∈ split stack,
            templateLookup (toLowerCase (trim token) ++ ".md".toList) = none) →
          content = "# AI Agent Instructions\n\n".toList) := by
  rw [run_ok toLowerCase templateLookup stack h]
  refine ⟨_, rfl, ?_, ?_, ?_⟩
  · exact List.prefix_append _ _
  · simp [contentOf, header]
  · intro hnone
    have hb : ∀ tech ∈ technologies (Env.ok toLowerCase templateLookup) stack,
        block templateLookup tech = [] := by
      intro tech htech
      obtain ⟨token, htoken, rfl⟩ := List.mem_map.1 htech
      have := hnone token htoken
      simp only [block, templateName, Env.ok]
      rw [this]
    have hflat : ∀ techs : List Str, (∀ tech ∈ techs, block templateLookup tech = []) →
        (techs.map (block templateLookup)).flatten = [] := by
      intro techs
      induction techs with
      | nil => intro _; rfl
      | cons t ts ih =>
        intro ht
        simp [ht t (List.mem_cons_self _ _), ih (fun x hx => ht x (List.mem_cons_of_mem _ hx))]
    simp only [contentOf, hflat _ hb, List.append_nil]
    rfl

theorem airc_starts_with_header_witness :
    "nonexistent".toList ≠ []
      ∧ (∀ token ∈ split "nonexistent".toList,
          sampleTemplates (asciiLower (trim token) ++ ".md".toList) = none)
      ∧ (run (Env.ok asciiLower sampleTemplates) (some "nonexistent".toList)).airc
          = some "# AI Agent Instructions\n\n".toList := by
  obtain ⟨content, h1, _, _, h4⟩ :=
    airc_starts_with_header asciiLower sampleTemplates "nonexistent".toList (by decide)
  exact ⟨by decide, by decide, h1.trans (congrArg some (h4 (by decide)))⟩

/-! ## Missing templates -/

/-- C5: for a non-empty stack, each token whose normalized identifier has no
template causes exactly the warning `Warning: No template found for <identifier>`
on standard error, in input order, and adds nothing to the output; every token
is still looked up, `.airc` is written, the success message is printed and the
exit code is 0. -/
theorem missing_template_is_not_fatal (toLowerCase : Str → Str)
    (templateLookup : Str → Option Str) (stack : Str) (h : stack ≠ []) :
    (run (Env.ok toLowerCase templateLookup) (some stack)).stderr =
        (((split stack).map (fun token => toLowerCase (trim token))).filter
          (fun identifier => (templateLookup (identifier ++ ".md".toList)).isNone)).map
          (fun identifier => "Warning: No template found for ".toList ++ identifier)
      ∧ (run (Env.ok toLowerCase templateLookup) (some stack)).airc =
        some (header ++
          ((((split stack).map (fun token => toLowerCase (trim token))).filterMap
            (fun identifier => templateLookup (identifier ++ ".md".toList))).map
            (fun text => text ++ "\n\n".toList)).flatten)
      ∧ (run (Env.ok toLowerCase templateLookup) (some stack)).fileOps =
        FileOp.ensureDir ::
          (((split stack).map (fun token => toLowerCase (trim token))).map
            (fun identifier => FileOp.readFile (identifier ++ ".md".toList)))
          ++ [FileOp.writeFile (contentOf templateLookup
            ((split stack).map (fun token => toLowerCase (trim token))))]
      ∧ (run (Env.ok toLowerCase templateLookup) (some stack)).stdout =
        [".airc file generated successfully!".toList]
      ∧ (run (Env.ok toLowerCase templateLookup) (some stack)).exitCode = 0 := by
  rw [run_ok toLowerCase templateLookup stack h]
  refine ⟨rfl, ?_, rfl, rfl, rfl⟩
  simp only [contentOf, technologies, Env.ok, flatten_map_block, map_block_resolved]

theorem missing_template_is_not_fatal_witness :
    "vue,nonexistent, ,html".toList ≠ []
      ∧ (run (Env.ok asciiLower sampleTemplates) (some "vue,nonexistent, ,html".toList)).stderr =
        ["Warning: No template found for nonexistent".toList,
          "Warning: No template found for ".toList]
      ∧ (run (Env.ok asciiLower sampleTemplates) (some "vue,nonexistent, ,html".toList)).exitCode
        = 0 :=
  ⟨by decide,
    (missing_template_is_not_fatal asciiLower sampleTemplates "vue,nonexistent, ,html".toList
      (by decide)).1.trans (by decide),
    (missing_template_is_not_fatal asciiLower sampleTemplates "vue,nonexistent, ,html".toList
      (by decide)).2.2.2.2⟩

/-- C10: for a non-empty stack, the number of template blocks appended to the
output plus the number of warnings emitted is the number of comma-separated
tokens, which is the number of commas of the stack plus one. -/
theorem every_token_accounted_once (toLowerCase : Str → Str)
    (templateLookup : Str → Option Str) (stack : Str) (h : stack ≠ []) :
    (run (Env.ok toLowerCase templateLookup) (some stack)).airc =
        some (header ++
          ((resolved templateLookup (technologies (Env.ok toLowerCase templateLookup) stack)).map
            (fun x => x.2 ++ "\n\n".toList)).flatten)
      ∧ (resolved templateLookup (technologies (Env.ok toLowerCase templateLookup) stack)).length
          + (run (Env.ok toLowerCase templateLookup) (some stack)).stderr.length
        = (split stack).length
      ∧ (split stack).length = stack.count ',' + 1 := by
  rw [run_ok toLowerCase templateLookup stack h]
  refine ⟨?_, ?_, length_split stack⟩
  · simp only [contentOf, flatten_map_block]
  · rw [length_resolved_add]
    simp [technologies]

theorem every_token_accounted_once_witness :
    "vue,nonexistent, ,html".toList ≠ []
      ∧ (resolved sampleTemplates
            (technologies (Env.ok asciiLower sampleTemplates) "vue,nonexistent, ,html".toList)).length
          + (run (Env.ok asciiLower sampleTemplates)
              (some "vue,nonexistent, ,html".toList)).stderr.length
        = 4 :=
  ⟨by decide,
    (every_token_accounted_once asciiLower sampleTemplates "vue,nonexistent, ,html".toList
      (by decide)).2.1.trans (by decide)⟩

/-! ## One more token -/

/-- C8: for a non-empty stack `s` and a further token `t`, the content written
for `s + "," + t` extends the content written for `s`: by the template and a
blank line (so by the template's length plus 2, strictly) when the normalized
`t` resolves, and by nothing otherwise. -/
theorem airc_content_grows (toLowerCase : Str → Str) (templateLookup : Str → Option Str)
    (s t : Str) (hs : s ≠ []) (ht : ',' ∉ t) :
    ∃ base extended,
      (run (Env.ok toLowerCase templateLookup) (some s)).airc = some base
      ∧ (run (Env.ok toLowerCase templateLookup) (some (s ++ ",".toList ++ t))).airc
          = some extended
      ∧ base <+: extended
      ∧ (∀ text, templateLookup (toLowerCase (trim t) ++ ".md".toList) = some text →
          extended = base ++ text ++ "\n\n".toList
            ∧ jsLength extended = jsLength base + (jsLength text + 2)
            ∧ jsLength base < jsLength extended)
      ∧ (templateLookup (toLowerCase (trim t) ++ ".md".toList) = none → extended = base) := by
  have hst : s ++ ",".toList ++ t ≠ [] := by
    intro e
    exact hs (List.append_eq_nil.1 (List.append_eq_nil.1 e).1).1
  have hsplit : split (s ++ ",".toList ++ t) = split s ++ [t] := by
    have : s ++ ",".toList ++ t = s ++ ',' :: t := by simp
    rw [this, split_append_comma, split_of_not_mem t ht]
  have hcontent : contentOf templateLookup
        (technologies (Env.ok toLowerCase templateLookup) (s ++ ",".toList ++ t))
      = contentOf templateLookup (technologies (Env.ok toLowerCase templateLookup) s)
        ++ block templateLookup (toLowerCase (trim t)) := by
    simp only [contentOf, technologies, Env.ok]
    rw [hsplit]
    simp
  rw [run_ok toLowerCase templateLookup s hs, run_ok toLowerCase templateLookup _ hst]
  refine ⟨_, _, rfl, rfl, ?_, ?_, ?_⟩
  · rw [hcontent]
    exact List.prefix_append _ _
  · intro text htext
    have hb : block templateLookup (toLowerCase (trim t)) = text ++ "\n\n".toList := by
      simp only [block, templateName]
      rw [htext]
    have hlen : jsLength (contentOf templateLookup
          (technologies (Env.ok toLowerCase templateLookup) (s ++ ",".toList ++ t)))
        = jsLength (contentOf templateLookup (technologies (Env.ok toLowerCase templateLookup) s))
          + (jsLength text + 2) := by
      rw [hcontent, hb, jsLength_append, jsLength_append]
      rfl
    refine ⟨?_, hlen, ?_⟩
    · rw [hcontent, hb, List.append_assoc]
    · omega
  · intro hnone
    have hb : block templateLookup (toLowerCase (trim t)) = [] := by
      simp only [block, templateName]
      rw [hnone]
    rw [hcontent, hb, List.append_nil]

theorem airc_content_grows_witness :
    "vue".toList ≠ [] ∧ ',' ∉ "html".toList
      ∧ sampleTemplates (asciiLower (trim "html".toList) ++ ".md".toList)
          = some "HTML rules".toList
      ∧ ∃ base extended,
          (run (Env.ok asciiLower sampleTemplates) (some "vue".toList)).airc = some base
          ∧ (run (Env.ok asciiLower sampleTemplates) (some "vue,html".toList)).airc = some extended
          ∧ base <+: extended
          ∧ jsLength base < jsLength extended := by
  obtain ⟨base, extended, h1, h2, h3, h4, _⟩ :=
    airc_content_grows asciiLower sampleTemplates "vue".toList "html".toList
      (by decide) (by decide)
  exact ⟨by decide, by decide, by decide, base, extended, h1, h2, h3,
    (h4 "HTML rules".toList (by decide)).2.2⟩

/-! ## White space around identifiers -/

theorem map_trim_split_join (pieces₁ pieces₂ : List Str)
    (h : List.Forall₂ (fun a b => (split a).map trim = (split b).map trim) pieces₁ pieces₂) :
    (split (join pieces₁)).map trim = (split (join pieces₂)).map trim := by
  induction h with
  | nil => rfl
  | @cons a b as bs hab hrest ih =>
    cases hrest with
    | nil => simpa [join] using hab
    | @cons a2 b2 as2 bs2 hab2 hrest2 =>
      simp only [join, split_append_comma, List.map_append] at ih ⊢
      rw [hab, ih]

theorem technologies_padded (env : Env) (tokens : List PaddedToken) (hpad : wellPadded tokens) :
    technologies env (paddedStack tokens) = technologies env (strippedStack tokens) := by
  have key : (split (paddedStack tokens)).map trim = (split (strippedStack tokens)).map trim := by
    unfold paddedStack strippedStack
    apply map_trim_split_join
    induction tokens with
    | nil => exact List.Forall₂.nil
    | cons x xs ih =>
      simp only [List.map_cons]
      refine List.Forall₂.cons ?_ (ih (fun y hy => hpad y (List.mem_cons_of_mem _ hy)))
      obtain ⟨hl, hr⟩ := hpad x (List.mem_cons_self _ _)
      rw [map_trim_split_pad _ _ _ hl hr, map_trim_split_trim]
  have h : ∀ s, technologies env s = ((split s).map trim).map env.toLowerCase := by
    intro s
    simp [technologies]
  rw [h, h, key]

theorem paddedStack_ne_nil (tokens : List PaddedToken) (h : strippedStack tokens ≠ []) :
    paddedStack tokens ≠ [] := by
  match tokens, h with
  | [], h => exact absurd rfl h
  | [x], h =>
    intro e
    apply h
    simp only [paddedStack, List.map_cons, List.map_nil, join, List.append_eq_nil] at e
    simp only [strippedStack, List.map_cons, List.map_nil, join, e.1.2]
    rfl
  | x :: y :: rest, _ =>
    simp [paddedStack, join]

/-- C3, as stated, fails: the single token made of nothing, surrounded by one
space, gives the stack `" "`, for which `.airc` is written with a warning, while
the stack of the stripped token is empty, for which the program stops with the
usage error and writes nothing. -/
theorem padding_of_empty_stack_matters :
    wellPadded [⟨" ".toList, [], []⟩]
      ∧ paddedStack [⟨" ".toList, [], []⟩] = " ".toList
      ∧ strippedStack [⟨" ".toList, [], []⟩] = []
      ∧ (run (Env.ok asciiLower sampleTemplates) (some (paddedStack [⟨" ".toList, [], []⟩]))).airc
          = some "# AI Agent Instructions\n\n".toList
      ∧ (run (Env.ok asciiLower sampleTemplates) (some (strippedStack [⟨" ".toList, [], []⟩]))).airc
          = none
      ∧ (run (Env.ok asciiLower sampleTemplates) (some (paddedStack [⟨" ".toList, [], []⟩]))).stderr
          = ["Warning: No template found for ".toList]
      ∧ (run (Env.ok asciiLower sampleTemplates) (some (strippedStack [⟨" ".toList, [], []⟩]))).stderr
          = ["Please provide a technology stack using --stack option".toList] := by
  decide

/-- C3, amended: unless the stack joined from the stripped tokens is empty
while the stack joined from the surrounded tokens is not, the stack joined from
the tokens surrounded by white space leaves the same process behind as the
stack joined from the stripped tokens: the same `.airc` content and the same
warnings. -/
theorem padding_is_irrelevant (env : Env) (tokens : List PaddedToken)
    (hpad : wellPadded tokens)
    (hne : strippedStack tokens ≠ [] ∨ paddedStack tokens = []) :
    run env (some (paddedStack tokens)) = run env (some (strippedStack tokens))
      ∧ (run env (some (paddedStack tokens))).airc
          = (run env (some (strippedStack tokens))).airc
      ∧ (run env (some (paddedStack tokens))).stderr
          = (run env (some (strippedStack tokens))).stderr := by
  have key : run env (some (paddedStack tokens)) = run env (some (strippedStack tokens)) := by
    rcases hne with h | h
    · exact run_congr env _ _ (paddedStack_ne_nil tokens h) h
        (technologies_padded env tokens hpad)
    · have hs : strippedStack tokens = [] := by
        by_contra hs
        exact paddedStack_ne_nil tokens hs h
      rw [h, hs]
  exact ⟨key, congrArg Process.airc key, congrArg Process.stderr key⟩

theorem padding_is_irrelevant_witness :
    wellPadded [⟨" ".toList, "vue".toList, " ".toList⟩, ⟨" ".toList, "html".toList, " ".toList⟩]
      ∧ strippedStack
          [⟨" ".toList, "vue".toList, " ".toList⟩, ⟨" ".toList, "html".toList, " ".toList⟩] ≠ []
      ∧ run (Env.ok asciiLower sampleTemplates) (some " vue , html ".toList)
          = run (Env.ok asciiLower sampleTemplates) (some "vue,html".toList) :=
  ⟨by decide, by decide,
    (padding_is_irrelevant (Env.ok asciiLower sampleTemplates)
      [⟨" ".toList, "vue".toList, " ".toList⟩, ⟨" ".toList, "html".toList, " ".toList⟩]
      (by decide) (Or.inl (by decide))).1⟩

/-! ## Letter case -/

theorem toLowerCase_join (toLowerCase : Str → Str) (hnil : toLowerCase [] = [])
    (hcomma : ∀ a b, toLowerCase (a ++ ',' :: b) = toLowerCase a ++ ',' :: toLowerCase b)
    (pieces : List Str) : toLowerCase (join pieces) = join (pieces.map toLowerCase) := by
  induction pieces with
  | nil => exact hnil
  | cons p ps ih =>
    cases ps with
    | nil => rfl
    | cons q qs =>
      simp only [join, List.map_cons] at ih ⊢
      rw [hcomma, ih]

theorem split_toLowerCase (toLowerCase : Str → Str) (hnil : toLowerCase [] = [])
    (hcomma : ∀ a b, toLowerCase (a ++ ',' :: b) = toLowerCase a ++ ',' :: toLowerCase b)
    (hpiece : ∀ a, ',' ∉ a → ',' ∉ toLowerCase a) (s : Str) :
    split (toLowerCase s) = (split s).map toLowerCase := by
  conv_lhs => rw [← join_split s]
  rw [toLowerCase_join toLowerCase hnil hcomma]
  apply split_join
  · simpa using split_ne_nil s
  · intro piece hp
    obtain ⟨q, hq, rfl⟩ := List.mem_map.1 hp
    exact hpiece q (not_mem_of_mem_split s q hq)

theorem technologies_eq_of_toLowerCase (env : Env) (hnil : env.toLowerCase [] = [])
    (hcomma : ∀ a b,
      env.toLowerCase (a ++ ',' :: b) = env.toLowerCase a ++ ',' :: env.toLowerCase b)
    (hpiece : ∀ a, ',' ∉ a → ',' ∉ env.toLowerCase a)
    (htrim : ∀ a, env.toLowerCase (trim a) = trim (env.toLowerCase a)) (s : Str) :
    technologies env s = (split (env.toLowerCase s)).map trim := by
  rw [split_toLowerCase env.toLowerCase hnil hcomma hpiece, List.map_map]
  unfold technologies
  apply List.map_congr_left
  intro a _
  exact htrim a

theorem asciiLowerChar_eq_comma (c : Char) (h : asciiLowerChar c = ',') : c = ',' := by
  unfold asciiLowerChar at h
  split_ifs at h with hc
  · exfalso
    obtain ⟨h1, h2⟩ := hc
    generalize c.toNat = n at h h1 h2
    interval_cases n <;> revert h <;> decide
  · exact h

theorem isWhiteSpace_asciiLowerChar (c : Char) :
    isWhiteSpace (asciiLowerChar c) = isWhiteSpace c := by
  unfold asciiLowerChar
  split_ifs with hc
  · obtain ⟨h1, h2⟩ := hc
    rw [← Char.ofNat_toNat c]
    generalize c.toNat = n at h1 h2
    interval_cases n <;> decide
  · rfl

theorem asciiLower_eq_nil (s : Str) : asciiLower s = [] ↔ s = [] := by
  simp [asciiLower]

theorem asciiLower_comma (a b : Str) :
    asciiLower (a ++ ',' :: b) = asciiLower a ++ ',' :: asciiLower b := by
  simp only [asciiLower, List.map_append, List.map_cons]
  rfl

theorem asciiLower_piece (a : Str) (h : ',' ∉ a) : ',' ∉ asciiLower a := by
  intro hmem
  obtain ⟨c, hc, e⟩ := List.mem_map.1 hmem
  rw [asciiLowerChar_eq_comma c e] at hc
  exact h hc

theorem asciiLower_trimStart (a : Str) : asciiLower (trimStart a) = trimStart (asciiLower a) := by
  unfold asciiLower trimStart
  rw [List.dropWhile_map]
  congr 2
  funext c
  exact (isWhiteSpace_asciiLowerChar c).symm

theorem asciiLower_trimEnd (a : Str) : asciiLower (trimEnd a) = trimEnd (asciiLower a) := by
  unfold asciiLower trimEnd
  rw [← List.map_reverse, List.dropWhile_map, ← List.map_reverse]
  congr 3
  funext c
  exact (isWhiteSpace_asciiLowerChar c).symm

theorem asciiLower_trim (a : Str) : asciiLower (trim a) = trim (asciiLower a) := by
  unfold trim
  rw [asciiLower_trimEnd, asciiLower_trimStart]

/-- C4: two stacks that are equal after lower-casing leave the same process
behind: the same lookups in the same order and the same `.airc` content. The
builtin `toLowerCase` enters through four of its laws: only the empty string
lower-cases to the empty string, a comma is kept and separates what is
lower-cased before it from what is after it, no comma appears in the lower case
of a comma-free string, and lower-casing commutes with trimming. -/
theorem letter_case_is_irrelevant (env : Env) (s₁ s₂ : Str)
    (hnil : ∀ a, env.toLowerCase a = [] ↔ a = [])
    (hcomma : ∀ a b,
      env.toLowerCase (a ++ ',' :: b) = env.toLowerCase a ++ ',' :: env.toLowerCase b)
    (hpiece : ∀ a, ',' ∉ a → ',' ∉ env.toLowerCase a)
    (htrim : ∀ a, env.toLowerCase (trim a) = trim (env.toLowerCase a))
    (h : env.toLowerCase s₁ = env.toLowerCase s₂) :
    run env (some s₁) = run env (some s₂)
      ∧ technologies env s₁ = technologies env s₂ := by
  have htech : technologies env s₁ = technologies env s₂ := by
    rw [technologies_eq_of_toLowerCase env ((hnil []).2 rfl) hcomma hpiece htrim,
      technologies_eq_of_toLowerCase env ((hnil []).2 rfl) hcomma hpiece htrim, h]
  refine ⟨?_, htech⟩
  by_cases h₁ : s₁ = []
  · have h₂ : s₂ = [] := (hnil s₂).1 (h ▸ (hnil s₁).2 h₁)
    rw [h₁, h₂]
  · have h₂ : s₂ ≠ [] := fun e => h₁ ((hnil s₁).1 (h ▸ (hnil s₂).2 e))
    exact run_congr env s₁ s₂ h₁ h₂ htech

theorem letter_case_is_irrelevant_witness :
    asciiLower "VUE,Html".toList = asciiLower "vue,html".toList
      ∧ run (Env.ok asciiLower sampleTemplates) (some "VUE,Html".toList)
          = run (Env.ok asciiLower sampleTemplates) (some "vue,html".toList)
      ∧ (run (Env.ok asciiLower sampleTemplates) (some "VUE,Html".toList)).airc
          = some "# AI Agent Instructions\n\nVue.js rules\n\nHTML rules\n\n".toList :=
  ⟨by decide,
    (letter_case_is_irrelevant (Env.ok asciiLower sampleTemplates) "VUE,Html".toList
      "vue,html".toList asciiLower_eq_nil asciiLower_comma asciiLower_piece asciiLower_trim
      (by decide)).1,
    by decide⟩

/-! ## The usage error -/

theorem run_nonempty (env : Env) (stack : Str) (h : stack ≠ []) :
    (run env (some stack)).exitCode = 0
      ∧ (run env (some stack)).fileOps.head? = some FileOp.ensureDir := by
  rw [run_some env stack h]
  unfold generateAIRC
  cases env.ensureDirError with
  | some e => simp [Process.start]
  | none =>
    cases env.writeFileError with
    | some e => simp [forLoop_eq, Process.start]
    | none => simp [forLoop_eq, Process.start]

/-- C6, as stated, fails: for the stack made of a space and a tab, which trims
to the empty string, the program does not stop with the usage error: it creates
the templates directory, looks up `.md`, writes `.airc` and exits with code 0. -/
theorem blank_stack_is_not_usage_error :
    trim " \t".toList = []
      ∧ run (Env.ok asciiLower sampleTemplates) (some " \t".toList) =
        { stdout := [".airc file generated successfully!".toList]
          stderr := ["Warning: No template found for ".toList]
          fileOps := [FileOp.ensureDir, FileOp.readFile ".md".toList,
            FileOp.writeFile "# AI Agent Instructions\n\n".toList]
          airc := some "# AI Agent Instructions\n\n".toList
          exitCode := 0 } := by
  decide

/-- C6, amended: when no `--stack` is given, or its value is the empty string,
the program prints the usage message to standard error, exits with code 1 and
attempts no file operation; for every other value, white space only included,
it exits with code 0 and its first file operation is the creation of the
templates directory. -/
theorem usage_error_iff_stack_empty (env : Env) :
    run env none =
        { stdout := []
          stderr := ["Please provide a technology stack using --stack option".toList]
          fileOps := []
          airc := none
          exitCode := 1 }
      ∧ run env (some []) =
        { stdout := []
          stderr := ["Please provide a technology stack using --stack option".toList]
          fileOps := []
          airc := none
          exitCode := 1 }
      ∧ ∀ stack, stack ≠ [] →
          (run env (some stack)).exitCode = 0
            ∧ (run env (some stack)).fileOps.head? = some FileOp.ensureDir :=
  ⟨rfl, rfl, fun stack h => run_nonempty env stack h⟩

theorem usage_error_iff_stack_empty_witness :
    " ".toList ≠ []
      ∧ (run (Env.ok asciiLower sampleTemplates) (some " ".toList)).exitCode = 0
      ∧ (run (Env.ok asciiLower sampleTemplates) (some " ".toList)).fileOps.head?
          = some FileOp.ensureDir :=
  ⟨by decide,
    (usage_error_iff_stack_empty (Env.ok asciiLower sampleTemplates)).2.2 " ".toList (by decide)⟩

/-! ## Unexpected I/O failures -/

/-- C7, as stated, fails: when writing `.airc` fails for the stack `vue`, the
success message is not printed, but the exit code is 0. -/
theorem write_failure_exits_zero :
    run ⟨asciiLower, sampleTemplates, none, some "EACCES: permission denied".toList⟩
        (some "vue".toList) =
      { stdout := []
        stderr := ["EACCES: permission denied".toList]
        fileOps := [FileOp.ensureDir, FileOp.readFile "vue.md".toList,
          FileOp.writeFile "# AI Agent Instructions\n\nVue.js rules\n\n".toList]
        airc := none
        exitCode := 0 } := by
  decide

/-- C7, amended: for a non-empty stack, when creating the templates directory
or writing `.airc` fails, the failure is caught by the handler attached to
`generateAIRC()` and reported on standard error after the warnings already
emitted; the success message is not printed, `.airc` is not written, and the
exit code is 0. -/
theorem io_failure_is_caught (toLowerCase : Str → Str) (templateLookup : Str → Option Str)
    (stack error : Str) (later : Option Str) (h : stack ≠ []) :
    run ⟨toLowerCase, templateLookup, some error, later⟩ (some stack) =
        { stdout := []
          stderr := [error]
          fileOps := [FileOp.ensureDir]
          airc := none
          exitCode := 0 }
      ∧ run ⟨toLowerCase, templateLookup, none, some error⟩ (some stack) =
        { stdout := []
          stderr := warningsOf templateLookup
            ((split stack).map (fun tech => toLowerCase (trim tech))) ++ [error]
          fileOps := fileOpsOf ((split stack).map (fun tech => toLowerCase (trim tech)))
            (contentOf templateLookup ((split stack).map (fun tech => toLowerCase (trim tech))))
          airc := none
          exitCode := 0 } := by
  constructor
  · rw [run_some _ _ h]
    simp [generateAIRC, Process.start]
  · rw [run_some _ _ h]
    simp [generateAIRC, forLoop_eq, Process.start, technologies, contentOf, fileOpsOf]

theorem io_failure_is_caught_witness :
    "nonexistent".toList ≠ []
      ∧ run ⟨asciiLower, sampleTemplates, some "EROFS: read-only file system".toList, none⟩
          (some "nonexistent".toList) =
        { stdout := []
          stderr := ["EROFS: read-only file system".toList]
          fileOps := [FileOp.ensureDir]
          airc := none
          exitCode := 0 } :=
  ⟨by decide,
    (io_failure_is_caught asciiLower sampleTemplates "nonexistent".toList
      "EROFS: read-only file system".toList none (by decide)).1⟩

/-! ## Empty tokens -/

/-- C9, as stated, fails: in the stack `vue,` the last token is empty, and when
the templates directory holds a file named `.md` that file becomes a content
block and no warning is emitted. -/
theorem empty_token_reads_dot_md :
    split "vue,".toList = ["vue".toList, []]
      ∧ trim [] = []
      ∧ run (Env.ok asciiLower dotTemplates) (some "vue,".toList) =
        { stdout := [".airc file generated successfully!".toList]
          stderr := []
          fileOps := [FileOp.ensureDir, FileOp.readFile "vue.md".toList,
            FileOp.readFile ".md".toList,
            FileOp.writeFile
              "# AI Agent Instructions\n\nVue.js rules\n\nNameless rules\n\n".toList]
          airc := some "# AI Agent Instructions\n\nVue.js rules\n\nNameless rules\n\n".toList
          exitCode := 0 } := by
  decide

/-- C9, amended: for a non-empty stack and a template lookup that has no file
named `.md`, a token that is empty after trimming contributes no content block
(the content is the one built from the tokens before and after it) and
produces the warning `Warning: No template found for `, between the warnings of
the tokens before it and those of the tokens after it. The builtin
`toLowerCase` enters through one law: the empty string lower-cases to itself. -/
theorem empty_token_fails_lookup (toLowerCase : Str → Str) (templateLookup : Str → Option Str)
    (stack : Str) (before : List Str) (token : Str) (after : List Str)
    (hstack : stack ≠ []) (hlower : toLowerCase [] = [])
    (hsplit : split stack = before ++ token :: after) (hempty : trim token = [])
    (hdot : templateLookup ".md".toList = none) :
    (run (Env.ok toLowerCase templateLookup) (some stack)).airc =
        some (contentOf templateLookup
          (before.map (fun tech => toLowerCase (trim tech))
            ++ after.map (fun tech => toLowerCase (trim tech))))
      ∧ (run (Env.ok toLowerCase templateLookup) (some stack)).stderr =
        warningsOf templateLookup (before.map (fun tech => toLowerCase (trim tech)))
          ++ "Warning: No template found for ".toList
          :: warningsOf templateLookup (after.map (fun tech => toLowerCase (trim tech))) := by
  have hb : block templateLookup [] = [] := by
    have : templateName [] = ".md".toList := rfl
    simp only [block, this, hdot]
  have hm : missing templateLookup [] = true := by
    have : templateName [] = ".md".toList := rfl
    simp only [missing, this, hdot]
    rfl
  have hw : warning [] = "Warning: No template found for ".toList := rfl
  rw [run_ok toLowerCase templateLookup stack hstack]
  simp only [technologies, Env.ok, hsplit, List.map_append, List.map_cons, hempty, hlower]
  constructor
  · simp [contentOf, hb]
  · simp only [warningsOf, List.filter_append, List.filter_cons, hm, if_true, List.map_append,
      List.map_cons, hw]

theorem empty_token_fails_lookup_witness :
    "vue, ,html".toList ≠ [] ∧ asciiLower [] = []
      ∧ split "vue, ,html".toList = ["vue".toList] ++ " ".toList :: ["html".toList]
      ∧ trim " ".toList = []
      ∧ sampleTemplates ".md".toList = none
      ∧ (run (Env.ok asciiLower sampleTemplates) (some "vue, ,html".toList)).airc =
        some "# AI Agent Instructions\n\nVue.js rules\n\nHTML rules\n\n".toList
      ∧ (run (Env.ok asciiLower sampleTemplates) (some "vue, ,html".toList)).stderr =
        ["Warning: No template found for ".toList] :=
  ⟨by decide, by decide, by decide, by decide, by decide,
    (empty_token_fails_lookup asciiLower sampleTemplates "vue, ,html".toList ["vue".toList]
      " ".toList ["html".toList] (by decide) (by decide) (by decide) (by decide)
      (by decide)).1.trans (by decide),
    (empty_token_fails_lookup asciiLower sampleTemplates "vue, ,html".toList ["vue".toList]
      " ".toList ["html".toList] (by decide) (by decide) (by decide) (by decide)
      (by decide)).2.trans (by decide)⟩

end Dotairc
